import Mathlib

/-!
# Verification of `nexus/pkg/artifacts/manifest.go`

A shallow embedding of the artifact-manifest component: the data model
(`Manifest`, `ManifestEntry`, `StoragePolicyConfig`), the proto converter
(`NewManifestFromProto`), the persistence writer (`WriteToFile`), the lookup
accessor (`GetManifestEntryFromArtifactFilePath`) and the remote loader
(`loadManifestFromURL`).

Modelling conventions:

* Go maps (`map[string]T`) are represented as association lists
  `List (String × T)`; map assignment `m[k] = v` is `mapInsert` (which removes
  any existing binding for `k` and appends the new one, so keys stay unique and
  later assignments win) and map indexing is `mapLookup` (first match).
  A Go map value corresponds canonically to a key-sorted, duplicate-free
  association list.
* Go `(T, error)` return values are represented as `T × Option String`, with
  `none` for a `nil` error, and errors carry the exact `fmt.Errorf` message
  text where the source builds one.
* `encoding/json` values unmarshalled into `interface{}` are represented by
  the inductive type `Json`.  `json.Unmarshal` of an arbitrary wire string is
  external library code, so the converter and the remote loader are
  parameterized over the parse function; the theorems hold for every parser.
* Pointer-typed optional fields (`*string`) are `Option String`.
-/

/-- Generic JSON value, the model of Go's `interface{}` holding a decoded
JSON document (numbers restricted to integers; no claim depends on the
numeric representation). -/
inductive Json where
  | null : Json
  | bool (b : Bool) : Json
  | num (n : Int) : Json
  | str (s : String) : Json
  | arr (elems : List Json) : Json
  | obj (fields : List (String × Json)) : Json

/-- Go map indexing `m[k]`: the value bound to `k`, if any (first match;
`mapInsert` keeps keys unique so at most one match exists). -/
def mapLookup {α : Type} : List (String × α) → String → Option α
  | [], _ => none
  | (k', v) :: rest, k => if k' = k then some v else mapLookup rest k

/-- Go map assignment `m[k] = v`: any existing binding for `k` is removed and
the new binding appended, so later assignments win and keys stay unique. -/
def mapInsert {α : Type} : List (String × α) → String → α → List (String × α)
  | [], k, v => [(k, v)]
  | p :: rest, k, v =>
    if p.1 = k then mapInsert rest k v else p :: mapInsert rest k v

/-- `type StoragePolicyConfig struct` (manifest.go:21-23). -/
structure StoragePolicyConfig where
  storageLayout : String
deriving DecidableEq, Repr

/-- `type ManifestEntry struct` (manifest.go:25-33).  `LocalPath` and
`DownloadURL` carry the json tag `"-"` in the source: they are never
serialized (see `manifestEntryToJson`). -/
structure ManifestEntry where
  digest : String
  birthArtifactID : Option String
  ref : Option String
  size : Int
  extra : List (String × Json)
  localPath : Option String
  downloadURL : Option String

/-- `type Manifest struct` (manifest.go:14-19). -/
structure Manifest where
  version : Int
  storagePolicy : String
  storagePolicyConfig : StoragePolicyConfig
  contents : List (String × ManifestEntry)

/-- The Go zero value `ManifestEntry{}`. -/
def ManifestEntry.empty : ManifestEntry :=
  { digest := "", birthArtifactID := none, ref := none, size := 0,
    extra := [], localPath := none, downloadURL := none }

/-- The Go zero value `Manifest{}`. -/
def Manifest.empty : Manifest :=
  { version := 0, storagePolicy := "",
    storagePolicyConfig := { storageLayout := "" }, contents := [] }

/-- One item of the wire-format `extra` list: `{key, valueJson}`
(proto message consumed at manifest.go:44-46). -/
structure ExtraItem where
  key : String
  valueJson : String
deriving DecidableEq, Repr

/-- One wire-format manifest entry record (proto message consumed at
manifest.go:42-61). -/
structure ArtifactManifestEntry where
  path : String
  digest : String
  birthArtifactId : String
  ref : String
  size : Int
  localPath : String
  extra : List ExtraItem
deriving DecidableEq, Repr

/-- The wire-format manifest message `service.ArtifactManifest`
(consumed at manifest.go:35-42). -/
structure ArtifactManifest where
  version : Int
  storagePolicy : String
  contents : List ArtifactManifestEntry
deriving DecidableEq, Repr

/-- Modelled from the spec: `utils.NilIfZero` (package
`nexus/pkg/utils`, not part of this excerpt) — "wire-format zero-value
(empty string) maps to absent; non-empty maps to present with that
value." -/
def nilIfZero (s : String) : Option String :=
  if s = "" then none else some s

/-- The inner `for _, item := range entry.Extra` loop of
`NewManifestFromProto` (manifest.go:43-53): parses each `valueJson`,
wrapping a parse failure as
`"manifest entry extra json.Unmarshal: " ++ err` and stopping at the first
failure; successful values are inserted into the accumulated extra map. -/
def buildExtra (parse : String → Except String Json) :
    List ExtraItem → List (String × Json) → Except String (List (String × Json))
  | [], acc => .ok acc
  | item :: rest, acc =>
    match parse item.valueJson with
    | .error e => .error ("manifest entry extra json.Unmarshal: " ++ e)
    | .ok v => buildExtra parse rest (mapInsert acc item.key v)

/-- The body of the outer `for _, entry := range proto.Contents` loop
(manifest.go:42-61): converts one wire entry to a `ManifestEntry`.
`DownloadURL` is not assigned in the source's composite literal, so it is
the zero value `nil`. -/
def convertManifestEntry (parse : String → Except String Json)
    (entry : ArtifactManifestEntry) : Except String ManifestEntry :=
  match buildExtra parse entry.extra [] with
  | .error e => .error e
  | .ok extra =>
    .ok { digest := entry.digest,
          birthArtifactID := nilIfZero entry.birthArtifactId,
          ref := nilIfZero entry.ref,
          size := entry.size,
          extra := extra,
          localPath := nilIfZero entry.localPath,
          downloadURL := none }

/-- The outer loop of `NewManifestFromProto` (manifest.go:42-62): folds the
wire entries into the contents map via `manifest.Contents[entry.Path] = …`,
propagating the first conversion error. -/
def convertContents (parse : String → Except String Json) :
    List ArtifactManifestEntry → List (String × ManifestEntry) →
    Except String (List (String × ManifestEntry))
  | [], acc => .ok acc
  | entry :: rest, acc =>
    match convertManifestEntry parse entry with
    | .error e => .error e
    | .ok me => convertContents parse rest (mapInsert acc entry.path me)

/-- `func NewManifestFromProto` (manifest.go:35-64).  Returns the Go pair
`(Manifest, error)`: on any extra-value parse failure the zero `Manifest{}`
together with the wrapped error, otherwise the fully built manifest with
`StoragePolicyConfig{StorageLayout: "V2"}` and a `nil` error. -/
def NewManifestFromProto (parse : String → Except String Json)
    (proto : ArtifactManifest) : Manifest × Option String :=
  match convertContents parse proto.contents [] with
  | .error e => (Manifest.empty, some e)
  | .ok contents =>
    ({ version := proto.version,
       storagePolicy := proto.storagePolicy,
       storagePolicyConfig := { storageLayout := "V2" },
       contents := contents }, none)

/-! ## Serialization: the model of `json.Marshal` on `Manifest`

Go's `json.Marshal` emits struct fields in declaration order, honours the
struct tags (`omitempty` on `Ref` and `Extra`, `"-"` on `LocalPath` and
`DownloadURL`, `birthArtifactID` always present with `null` for a nil
pointer) and emits map keys in sorted order. -/

/-- Insert a key/value pair into a key-sorted association list. -/
def insertByKey {α : Type} (p : String × α) :
    List (String × α) → List (String × α)
  | [] => [p]
  | q :: rest => if p.1 < q.1 then p :: q :: rest else q :: insertByKey p rest

/-- Sort an association list by key (insertion sort), the model of
`json.Marshal`'s sorted map-key output order. -/
def sortByKey {α : Type} (l : List (String × α)) : List (String × α) :=
  l.foldr insertByKey []

/-- Hex digit used by the string escaper. -/
def hexDigit (n : Nat) : String :=
  ["0", "1", "2", "3", "4", "5", "6", "7", "8", "9",
   "a", "b", "c", "d", "e", "f"].getD n "0"

/-- JSON string escaping as performed by Go's default encoder: quotes,
backslashes, the HTML characters, and control characters. -/
def escapeJsonChar (c : Char) : String :=
  if c = '"' then "\\\""
  else if c = '\\' then "\\\\"
  else if c = '\n' then "\\n"
  else if c = '\r' then "\\r"
  else if c = '\t' then "\\t"
  else if c = '<' then "\\u003c"
  else if c = '>' then "\\u003e"
  else if c = '&' then "\\u0026"
  else if c.toNat < 32 then
    "\\u00" ++ hexDigit (c.toNat / 16) ++ hexDigit (c.toNat % 16)
  else String.singleton c

/-- A JSON string literal: quoted and escaped. -/
def serializeString (s : String) : String :=
  "\"" ++ String.join (s.toList.map escapeJsonChar) ++ "\""

mutual

/-- Print a `Json` value as JSON text (the model of `json.Marshal` applied
to an already-structured value). -/
def serializeJson : Json → String
  | .null => "null"
  | .bool true => "true"
  | .bool false => "false"
  | .num n => toString n
  | .str s => serializeString s
  | .arr xs => "[" ++ serializeItems xs ++ "]"
  | .obj fs => "\x7b" ++ serializeFields fs ++ "\x7d"

/-- Comma-separated array elements. -/
def serializeItems : List Json → String
  | [] => ""
  | [x] => serializeJson x
  | x :: y :: rest => serializeJson x ++ "," ++ serializeItems (y :: rest)

/-- Comma-separated object members. -/
def serializeFields : List (String × Json) → String
  | [] => ""
  | [(k, v)] => serializeString k ++ ":" ++ serializeJson v
  | (k, v) :: q :: rest =>
    serializeString k ++ ":" ++ serializeJson v ++ "," ++ serializeFields (q :: rest)

end

/-- Marshal one `ManifestEntry` per its struct tags (manifest.go:25-33):
`digest` then `birthArtifactID` (a nil pointer marshals as `null`), `ref`
omitted when nil (`omitempty`), `size`, `extra` omitted when empty
(`omitempty`); `localPath` and `downloadURL` carry the tag `"-"` and are
never emitted. -/
def manifestEntryToJson (e : ManifestEntry) : Json :=
  Json.obj (
    [("digest", Json.str e.digest),
     ("birthArtifactID",
       match e.birthArtifactID with
       | none => Json.null
       | some s => Json.str s)]
    ++ (match e.ref with
        | none => []
        | some s => [("ref", Json.str s)])
    ++ [("size", Json.num e.size)]
    ++ (match e.extra with
        | [] => []
        | _ :: _ => [("extra", Json.obj (sortByKey e.extra))]))

/-- Marshal a `Manifest` per its struct tags (manifest.go:14-19); the
`contents` map is emitted with sorted keys, as `json.Marshal` does. -/
def manifestToJson (m : Manifest) : Json :=
  Json.obj
    [("version", Json.num m.version),
     ("storagePolicy", Json.str m.storagePolicy),
     ("storagePolicyConfig",
       Json.obj [("storageLayout", Json.str m.storagePolicyConfig.storageLayout)]),
     ("contents",
       Json.obj (sortByKey (m.contents.map fun p => (p.1, manifestEntryToJson p.2))))]

/-! ## Deserialization: the model of `json.Unmarshal` into `Manifest`

Go's `Unmarshal` into a struct matches object keys to field tags (the
encoder above emits the exact tag names, so exact matching applies), leaves
a field at its zero value when its key is missing or its value is `null`,
rejects values of the wrong type, never assigns fields tagged `"-"`, and
fills maps with later duplicate keys overwriting earlier ones. -/

/-- Unmarshal a `string` struct field: zero value `""` when missing or
`null`, error (`none`) on a non-string value. -/
def decodeStringField (fields : List (String × Json)) (key : String) :
    Option String :=
  match mapLookup fields key with
  | none => some ""
  | some Json.null => some ""
  | some (Json.str s) => some s
  | some _ => none

/-- Unmarshal a `*string` struct field: nil when missing or `null`. -/
def decodeOptStringField (fields : List (String × Json)) (key : String) :
    Option (Option String) :=
  match mapLookup fields key with
  | none => some none
  | some Json.null => some none
  | some (Json.str s) => some (some s)
  | some _ => none

/-- Unmarshal an integer struct field: zero when missing or `null`. -/
def decodeIntField (fields : List (String × Json)) (key : String) :
    Option Int :=
  match mapLookup fields key with
  | none => some 0
  | some Json.null => some 0
  | some (Json.num n) => some n
  | some _ => none

/-- Unmarshal a `map[string]interface{}` value; duplicate keys in the JSON
object overwrite (last wins). -/
def decodeJsonMap : Json → Option (List (String × Json))
  | Json.null => some []
  | Json.obj fs => some (fs.foldl (fun acc p => mapInsert acc p.1 p.2) [])
  | _ => none

/-- Unmarshal one `ManifestEntry`; `localPath`/`downloadURL` are tagged
`"-"` so they are never assigned and stay nil. -/
def manifestEntryOfJson : Json → Option ManifestEntry
  | Json.null => some ManifestEntry.empty
  | Json.obj fields => do
    let digest ← decodeStringField fields "digest"
    let birth ← decodeOptStringField fields "birthArtifactID"
    let ref ← decodeOptStringField fields "ref"
    let size ← decodeIntField fields "size"
    let extra ←
      match mapLookup fields "extra" with
      | none => some []
      | some j => decodeJsonMap j
    some { digest := digest, birthArtifactID := birth, ref := ref,
           size := size, extra := extra, localPath := none,
           downloadURL := none }
  | _ => none

/-- Unmarshal a `StoragePolicyConfig`. -/
def decodeStoragePolicyConfig : Json → Option StoragePolicyConfig
  | Json.null => some { storageLayout := "" }
  | Json.obj fields => do
    let sl ← decodeStringField fields "storageLayout"
    some { storageLayout := sl }
  | _ => none

/-- One step of unmarshalling the `contents` map: decode the entry object
and assign it under its path (later duplicate keys overwrite). -/
def decodeContentsStep (acc : List (String × ManifestEntry))
    (p : String × Json) : Option (List (String × ManifestEntry)) := do
  let e ← manifestEntryOfJson p.2
  pure (mapInsert acc p.1 e)

/-- Unmarshal the `contents` map. -/
def decodeContents : Json → Option (List (String × ManifestEntry))
  | Json.null => some []
  | Json.obj fields => fields.foldlM decodeContentsStep []
  | _ => none

/-- Unmarshal a `Manifest` from a decoded JSON structure. -/
def manifestOfJson : Json → Option Manifest
  | Json.null => some Manifest.empty
  | Json.obj fields => do
    let version ← decodeIntField fields "version"
    let sp ← decodeStringField fields "storagePolicy"
    let spc ←
      match mapLookup fields "storagePolicyConfig" with
      | none => some { storageLayout := "" }
      | some j => decodeStoragePolicyConfig j
    let contents ←
      match mapLookup fields "contents" with
      | none => some []
      | some j => decodeContents j
    some { version := version, storagePolicy := sp,
           storagePolicyConfig := spc, contents := contents }
  | _ => none

/-! ## Persistence writer, lookup accessor, remote loader -/

/-- The filesystem effects of one `WriteToFile` call, chosen by the
environment: whether `json.Marshal` fails (Go's `interface{}` extra values
can hold non-serializable data), the outcome of `os.CreateTemp` (an error
or the fresh temp file's name), whether `f.Write` fails, and — when the
write fails partway — the partial content left in the file. -/
structure WriteEnv where
  marshalErr : Option String
  createTemp : Except String String
  writeErr : Option String
  truncatedContent : String

/-- What one `WriteToFile` call produced: the returned `(filename, digest,
rerr)` triple and, when a temp file was created and written, its name and
the bytes it holds. -/
structure WriteOutcome where
  filename : String
  digest : String
  error : Option String
  fileWritten : Option (String × String)

/-- `func (m *Manifest) WriteToFile()` (manifest.go:66-85).  Marshals the
manifest, creates a temp file, writes the data; the named results
`filename`/`digest` keep their zero value `""` on every early `return`
(in the source `filename = f.Name()` is assigned only after the write
succeeds).  The digest is `utils.ComputeB64MD5(data)` — library code
outside this excerpt, modelled from the spec as a total function
`b64md5` ("computes a base64-encoded MD5 digest over the exact serialized
byte sequence that was written"). -/
def WriteToFile (b64md5 : String → String) (env : WriteEnv) (m : Manifest) :
    WriteOutcome :=
  match env.marshalErr with
  | some e => ⟨"", "", some e, none⟩
  | none =>
    let data := serializeJson (manifestToJson m)
    match env.createTemp with
    | .error e => ⟨"", "", some e, none⟩
    | .ok name =>
      match env.writeErr with
      | some e => ⟨"", "", some e, some (name, env.truncatedContent)⟩
      | none => ⟨name, b64md5 data, none, some (name, data)⟩

/-- `func (m *Manifest) GetManifestEntryFromArtifactFilePath`
(manifest.go:87-94): map lookup; on a miss returns the zero
`ManifestEntry{}` and the error
`"path not contained in artifact: " ++ path`. -/
def GetManifestEntryFromArtifactFilePath (m : Manifest) (path : String) :
    ManifestEntry × Option String :=
  match mapLookup m.contents path with
  | some entry => (entry, none)
  | none =>
    (ManifestEntry.empty, some ("path not contained in artifact: " ++ path))

/-- The network's answer to one `http.Get`: the status code and the outcome
of `io.ReadAll(resp.Body)`. -/
structure HttpResponse where
  statusCode : Nat
  bodyRead : Except String String

/-- `func loadManifestFromURL` (manifest.go:96-115), parameterized over the
network (`net url` is the outcome of `http.Get(url)`) and over
`json.Unmarshal` into `Manifest` (`unmarshalManifest`).  Faithful to the
source: a non-`200` status fails with the status-code error before the body
is read; a body-read failure is wrapped; an unmarshal failure is swallowed —
the source's `return Manifest{}, nil` at manifest.go:112. -/
def loadManifestFromURL (unmarshalManifest : String → Option Manifest)
    (net : String → Except String HttpResponse) (url : String) :
    Manifest × Option String :=
  match net url with
  | .error e => (Manifest.empty, some e)
  | .ok resp =>
    if resp.statusCode ≠ 200 then
      (Manifest.empty,
       some ("request to get manifest from url failed with status code: " ++
             toString resp.statusCode))
    else
      match resp.bodyRead with
      | .error e => (Manifest.empty, some ("error reading response body: " ++ e))
      | .ok body =>
        match unmarshalManifest body with
        | none => (Manifest.empty, none)
        | some manifest => (manifest, none)

/-- A concrete `json.Unmarshal`-into-`interface{}` model covering the
literal fragment of JSON (`null` and the booleans), used to instantiate
the parser parameter on concrete inputs. -/
def jsonParseLiteral (s : String) : Except String Json :=
  if s = "null" then .ok Json.null
  else if s = "true" then .ok (Json.bool true)
  else if s = "false" then .ok (Json.bool false)
  else .error "invalid character looking for beginning of value"

/-! ## Auxiliary predicates and sample inputs -/

/-- Strictly key-sorted association list: the canonical representation of a
Go map value (`json.Marshal` emits map keys in exactly this order, and every
Go map has exactly one such representation). -/
def keysSorted {α : Type} (l : List (String × α)) : Prop :=
  l.Pairwise fun p q => p.1 < q.1

instance keysSortedDecidable {α : Type} (l : List (String × α)) :
    Decidable (keysSorted l) := by
  unfold keysSorted
  infer_instance

/-- Drop the fields that are never serialized (`localPath`, `downloadURL`,
both tagged `json:"-"`). -/
def ManifestEntry.scrub (e : ManifestEntry) : ManifestEntry :=
  { e with localPath := none, downloadURL := none }

/-- Sample wire entry with empty `birthArtifactId`/`localPath` and a
non-empty `ref`. -/
def sampleWireEntry : ArtifactManifestEntry :=
  { path := "model.pt", digest := "abc123", birthArtifactId := "",
    ref := "s3://bucket/model.pt", size := 1024, localPath := "",
    extra := [] }

/-- The wire entry of the spec's concrete scenario: `path:"model.pt",
digest:"abc123", size:1024, birthArtifactId:"", ref:"", extra:[]`. -/
def sampleWireEntryPlain : ArtifactManifestEntry :=
  { path := "model.pt", digest := "abc123", birthArtifactId := "",
    ref := "", size := 1024, localPath := "", extra := [] }

/-- Wire entry carrying a malformed `valueJson`. -/
def sampleBadWireEntry : ArtifactManifestEntry :=
  { path := "model.pt", digest := "abc123", birthArtifactId := "",
    ref := "", size := 1024, localPath := "",
    extra := [{ key := "k", valueJson := "not-json" }] }

/-- Wire manifest whose single entry carries a malformed `valueJson`. -/
def sampleBadWireManifest : ArtifactManifest :=
  { version := 1, storagePolicy := "wandb-storage-policy-v1",
    contents := [sampleBadWireEntry] }

/-- Wire entry whose extra values all parse. -/
def sampleGoodWireEntry : ArtifactManifestEntry :=
  { path := "model.pt", digest := "abc123", birthArtifactId := "",
    ref := "", size := 1024, localPath := "",
    extra := [{ key := "epoch", valueJson := "true" }] }

/-- Wire manifest whose extra values all parse. -/
def sampleGoodWireManifest : ArtifactManifest :=
  { version := 1, storagePolicy := "wandb-storage-policy-v1",
    contents := [sampleGoodWireEntry] }

/-- Wire manifest with two entries sharing the path `"model.pt"`. -/
def sampleDupWireManifest : ArtifactManifest :=
  { version := 1, storagePolicy := "wandb-storage-policy-v1",
    contents :=
      [{ path := "model.pt", digest := "old", birthArtifactId := "",
         ref := "", size := 1, localPath := "", extra := [] },
       { path := "model.pt", digest := "new", birthArtifactId := "",
         ref := "", size := 2, localPath := "", extra := [] }] }

/-- Sample in-memory entry stored under `"data.txt"` below. -/
def sampleEntryData : ManifestEntry :=
  { digest := "d1", birthArtifactID := some "art1", ref := none, size := 5,
    extra := [("a", Json.num 1), ("b", Json.bool true)],
    localPath := some "/tmp/data.txt", downloadURL := some "http://u/d" }

/-- Sample in-memory entry stored under `"model.pt"` below. -/
def sampleEntryModel : ManifestEntry :=
  { digest := "d2", birthArtifactID := none, ref := some "s3://b/m",
    size := 9, extra := [], localPath := none, downloadURL := none }

/-- Sample in-memory manifest (contents and extras key-sorted). -/
def sampleManifest : Manifest :=
  { version := 1, storagePolicy := "wandb-storage-policy-v1",
    storagePolicyConfig := { storageLayout := "V2" },
    contents := [("data.txt", sampleEntryData), ("model.pt", sampleEntryModel)] }

/-- Sample environment in which every filesystem step succeeds. -/
def sampleWriteEnvOk : WriteEnv :=
  { marshalErr := none, createTemp := .ok "/tmp/tmpfile-123456",
    writeErr := none, truncatedContent := "" }

/-- Sample environment in which `os.CreateTemp` fails. -/
def sampleWriteEnvNoTemp : WriteEnv :=
  { marshalErr := none, createTemp := .error "permission denied",
    writeErr := none, truncatedContent := "" }

/-- Stand-in digest function used to instantiate the `b64md5` parameter. -/
def sampleDigestFn (data : String) : String :=
  toString data.length

/-! ## Lemmas about the map model -/

/-- Looking up in a map after an assignment: the assigned key sees the new
value, other keys are untouched. -/
theorem mapLookup_mapInsert {α : Type} (m : List (String × α)) (k k' : String)
    (v : α) :
    mapLookup (mapInsert m k v) k' = if k = k' then some v else mapLookup m k' := by
  induction m with
  | nil => simp [mapLookup, mapInsert]
  | cons p rest ih =>
    by_cases hpk : p.1 = k
    · rw [mapInsert, if_pos hpk, ih]
      by_cases hkk : k = k' <;> simp_all [mapLookup]
    · rw [mapInsert, if_neg hpk]
      by_cases hpk' : p.1 = k' <;> by_cases hkk : k = k' <;>
        simp_all [mapLookup]

/-- Every binding of `mapInsert m k v` has key `k` or was already in `m`. -/
theorem mem_mapInsert {α : Type} (m : List (String × α)) (k : String) (v : α)
    (q : String × α) (h : q ∈ mapInsert m k v) : q.1 = k ∨ q ∈ m := by
  induction m with
  | nil =>
    rw [mapInsert, List.mem_singleton] at h
    exact Or.inl (by rw [h])
  | cons p rest ih =>
    by_cases hpk : p.1 = k
    · rw [mapInsert, if_pos hpk] at h
      rcases ih h with h1 | h1
      · exact Or.inl h1
      · exact Or.inr (List.mem_cons_of_mem p h1)
    · rw [mapInsert, if_neg hpk, List.mem_cons] at h
      rcases h with h1 | h1
      · exact Or.inr (h1 ▸ List.mem_cons_self p rest)
      · rcases ih h1 with h2 | h2
        · exact Or.inl h2
        · exact Or.inr (List.mem_cons_of_mem p h2)

/-- Map assignment preserves key uniqueness. -/
theorem nodup_keys_mapInsert {α : Type} (m : List (String × α)) (k : String)
    (v : α) (h : (m.map Prod.fst).Nodup) :
    ((mapInsert m k v).map Prod.fst).Nodup := by
  induction m with
  | nil => simp [mapInsert]
  | cons p rest ih =>
    simp only [List.map_cons, List.nodup_cons] at h
    by_cases hpk : p.1 = k
    · rw [mapInsert, if_pos hpk]
      exact ih h.2
    · rw [mapInsert, if_neg hpk, List.map_cons, List.nodup_cons]
      refine ⟨fun hmem => ?_, ih h.2⟩
      rw [List.mem_map] at hmem
      obtain ⟨q, hq, hq1⟩ := hmem
      rcases mem_mapInsert rest k v q hq with h1 | h1
      · exact hpk (hq1 ▸ h1)
      · exact h.1 (hq1 ▸ List.mem_map_of_mem Prod.fst h1)

/-- Assigning a key that is not yet bound appends the binding. -/
theorem mapInsert_of_not_mem {α : Type} (m : List (String × α)) (k : String)
    (v : α) (h : ∀ p ∈ m, p.1 ≠ k) : mapInsert m k v = m ++ [(k, v)] := by
  induction m with
  | nil => rfl
  | cons p rest ih =>
    have hp : p.1 ≠ k := h p (List.mem_cons_self p rest)
    rw [mapInsert, if_neg hp, List.cons_append,
      ih fun q hq => h q (List.mem_cons_of_mem p hq)]

/-! ## Claim theorems: converter field normalization, lookup, writer, loader -/

/-- Claim C1: for every wire-format entry converted by the proto converter
(the loop body of `NewManifestFromProto`), an empty-string
`birthArtifactId`, `ref` or `localPath` in the input maps to an absent
(`none`) field of the resulting `ManifestEntry`, and a non-empty string
maps to a present field holding exactly that value. -/
theorem spec_c1_optional_normalization (parse : String → Except String Json)
    (entry : ArtifactManifestEntry) (e : ManifestEntry)
    (h : convertManifestEntry parse entry = .ok e) :
    e.birthArtifactID =
      (if entry.birthArtifactId = "" then none
       else some entry.birthArtifactId) ∧
    e.ref = (if entry.ref = "" then none else some entry.ref) ∧
    e.localPath =
      (if entry.localPath = "" then none else some entry.localPath) := by
  rw [convertManifestEntry] at h
  cases hb : buildExtra parse entry.extra [] with
  | error err => rw [hb] at h; exact absurd h (by simp)
  | ok extra =>
    rw [hb] at h
    injection h with h2
    subst h2
    exact ⟨rfl, rfl, rfl⟩

/-- Witness for C1 at a concrete wire entry (empty `birthArtifactId` and
`localPath`, non-empty `ref`). -/
theorem spec_c1_optional_normalization_witness :
    ∃ e, convertManifestEntry jsonParseLiteral sampleWireEntry = .ok e ∧
      (e.birthArtifactID =
        (if sampleWireEntry.birthArtifactId = "" then none
         else some sampleWireEntry.birthArtifactId) ∧
       e.ref =
        (if sampleWireEntry.ref = "" then none
         else some sampleWireEntry.ref) ∧
       e.localPath =
        (if sampleWireEntry.localPath = "" then none
         else some sampleWireEntry.localPath)) :=
  ⟨_, rfl, spec_c1_optional_normalization jsonParseLiteral sampleWireEntry _ rfl⟩

/-- Claim C5: a wire entry whose extra list is empty converts to a
`ManifestEntry` whose `extra` is empty, and the serialized entry object
(the object stored under the entry's path in the manifest JSON) omits the
`"extra"` key entirely. -/
theorem spec_c5_empty_extra_omitted (parse : String → Except String Json)
    (entry : ArtifactManifestEntry) (e : ManifestEntry)
    (hx : entry.extra = []) (h : convertManifestEntry parse entry = .ok e) :
    e.extra = [] ∧
    ∃ fields, manifestEntryToJson e = Json.obj fields ∧
      "extra" ∉ fields.map Prod.fst := by
  rw [convertManifestEntry, hx] at h
  simp only [buildExtra] at h
  injection h with h2
  subst h2
  refine ⟨rfl, _, rfl, ?_⟩
  by_cases hr : entry.ref = "" <;>
    simp [manifestEntryToJson, nilIfZero, hr]

/-- Witness for C5 at the spec's concrete scenario entry. -/
theorem spec_c5_empty_extra_omitted_witness :
    ∃ e, convertManifestEntry jsonParseLiteral sampleWireEntryPlain = .ok e ∧
      (e.extra = [] ∧
       ∃ fields, manifestEntryToJson e = Json.obj fields ∧
         "extra" ∉ fields.map Prod.fst) :=
  ⟨_, rfl,
   spec_c5_empty_extra_omitted jsonParseLiteral sampleWireEntryPlain _ rfl rfl⟩

/-- Claim C7: looking up a path present in `contents` returns that exact
entry with a `nil` error; looking up an absent path returns the zero
`ManifestEntry{}` and the error naming the missing path.  The receiver is
read-only: the accessor is a pure function of the manifest. -/
theorem spec_c7_lookup (m : Manifest) (path : String) :
    (∀ e, mapLookup m.contents path = some e →
      GetManifestEntryFromArtifactFilePath m path = (e, none)) ∧
    (mapLookup m.contents path = none →
      GetManifestEntryFromArtifactFilePath m path =
        (ManifestEntry.empty,
         some ("path not contained in artifact: " ++ path))) := by
  constructor
  · intro e he
    rw [GetManifestEntryFromArtifactFilePath, he]
  · intro hn
    rw [GetManifestEntryFromArtifactFilePath, hn]

/-- Witness for C7: a hit and a miss on the sample manifest. -/
theorem spec_c7_lookup_witness :
    GetManifestEntryFromArtifactFilePath sampleManifest "model.pt" =
      (sampleEntryModel, none) ∧
    GetManifestEntryFromArtifactFilePath sampleManifest "missing.txt" =
      (ManifestEntry.empty,
       some ("path not contained in artifact: " ++ "missing.txt")) :=
  ⟨(spec_c7_lookup sampleManifest "model.pt").1 sampleEntryModel rfl,
   (spec_c7_lookup sampleManifest "missing.txt").2 rfl⟩

/-- Claim C8: when the GET completes with a non-success status, the loader
returns the zero `Manifest{}` and the error carrying that status code; the
statement holds for every `unmarshalManifest` and every response body, so
the response body is never parsed in this case. -/
theorem spec_c8_remote_status (unmarshalManifest : String → Option Manifest)
    (net : String → Except String HttpResponse) (url : String)
    (resp : HttpResponse) (hnet : net url = .ok resp)
    (hst : resp.statusCode ≠ 200) :
    loadManifestFromURL unmarshalManifest net url =
      (Manifest.empty,
       some ("request to get manifest from url failed with status code: " ++
             toString resp.statusCode)) := by
  rw [loadManifestFromURL, hnet]
  simp [hst]

/-- Witness for C8: a 404 response yields the status-code error and no
manifest. -/
theorem spec_c8_remote_status_witness :
    loadManifestFromURL (fun _ => none)
      (fun _ => .ok { statusCode := 404, bodyRead := .ok "" })
      "http://example.com/manifest.json" =
      (Manifest.empty,
       some ("request to get manifest from url failed with status code: " ++
             toString (404 : Nat))) :=
  spec_c8_remote_status _ _ _ _ rfl (by decide)

/-- Claim C9: when the GET returns status 200 and the body fails JSON
decoding as the manifest schema, the loader returns the zero `Manifest{}`
together with a `nil` error — the decode failure is swallowed
(manifest.go:112). -/
theorem spec_c9_decode_swallowed (unmarshalManifest : String → Option Manifest)
    (net : String → Except String HttpResponse) (url : String)
    (resp : HttpResponse) (body : String)
    (hnet : net url = .ok resp) (hst : resp.statusCode = 200)
    (hb : resp.bodyRead = .ok body) (hu : unmarshalManifest body = none) :
    loadManifestFromURL unmarshalManifest net url = (Manifest.empty, none) := by
  rw [loadManifestFromURL, hnet]
  simp [hst, hb, hu]

/-- Witness for C9: a 200 response with an undecodable body yields the
empty manifest and no error. -/
theorem spec_c9_decode_swallowed_witness :
    loadManifestFromURL (fun _ => none)
      (fun _ => .ok { statusCode := 200, bodyRead := .ok "not json" })
      "http://example.com/manifest.json" = (Manifest.empty, none) :=
  spec_c9_decode_swallowed _ _ _ _ "not json" rfl rfl rfl rfl

/-- Claim C4: whenever `WriteToFile` succeeds, the returned digest is
exactly `b64md5` of the byte sequence written to the temporary file. -/
theorem spec_c4_digest_of_written (b64md5 : String → String) (env : WriteEnv)
    (m : Manifest) (h : (WriteToFile b64md5 env m).error = none) :
    ∃ name data,
      (WriteToFile b64md5 env m).fileWritten = some (name, data) ∧
      (WriteToFile b64md5 env m).digest = b64md5 data := by
  cases hm : env.marshalErr with
  | some e => simp [WriteToFile, hm] at h
  | none =>
    cases hc : env.createTemp with
    | error e => simp [WriteToFile, hm, hc] at h
    | ok name =>
      cases hw : env.writeErr with
      | some e => simp [WriteToFile, hm, hc, hw] at h
      | none =>
        refine ⟨name, serializeJson (manifestToJson m), ?_, ?_⟩ <;>
          simp [WriteToFile, hm, hc, hw]

/-- Witness for C4 on the sample manifest in the all-success environment. -/
theorem spec_c4_digest_of_written_witness :
    ∃ name data,
      (WriteToFile sampleDigestFn sampleWriteEnvOk sampleManifest).fileWritten =
        some (name, data) ∧
      (WriteToFile sampleDigestFn sampleWriteEnvOk sampleManifest).digest =
        sampleDigestFn data :=
  spec_c4_digest_of_written sampleDigestFn sampleWriteEnvOk sampleManifest rfl

/-- Claim C10: whenever `WriteToFile` returns a non-nil error — marshal
failure, temp-file creation failure or write failure — the returned
filename and digest are both the empty string (in the source,
`filename = f.Name()` is only assigned after a successful write). -/
theorem spec_c10_zero_results_on_error (b64md5 : String → String)
    (env : WriteEnv) (m : Manifest)
    (h : (WriteToFile b64md5 env m).error ≠ none) :
    (WriteToFile b64md5 env m).filename = "" ∧
    (WriteToFile b64md5 env m).digest = "" := by
  cases hm : env.marshalErr with
  | some e => simp [WriteToFile, hm]
  | none =>
    cases hc : env.createTemp with
    | error e => simp [WriteToFile, hm, hc]
    | ok name =>
      cases hw : env.writeErr with
      | some e => simp [WriteToFile, hm, hc, hw]
      | none =>
        exact absurd (by simp [WriteToFile, hm, hc, hw]) h

/-- Witness for C10: a failed `os.CreateTemp` yields empty filename and
digest. -/
theorem spec_c10_zero_results_on_error_witness :
    (WriteToFile sampleDigestFn sampleWriteEnvNoTemp sampleManifest).filename = "" ∧
    (WriteToFile sampleDigestFn sampleWriteEnvNoTemp sampleManifest).digest = "" :=
  spec_c10_zero_results_on_error _ _ _
    (by simp [WriteToFile, sampleWriteEnvNoTemp])

/-! ## Error propagation through the proto converter (claim C2) -/

/-- When every extra value parses, the inner loop succeeds. -/
theorem buildExtra_ok_of_all (parse : String → Except String Json)
    (items : List ExtraItem)
    (h : ∀ item ∈ items, ∃ v, parse item.valueJson = .ok v) :
    ∀ acc, ∃ r, buildExtra parse items acc = .ok r := by
  induction items with
  | nil => exact fun acc => ⟨acc, rfl⟩
  | cons item rest ih =>
    intro acc
    obtain ⟨v, hv⟩ := h item (List.mem_cons_self item rest)
    obtain ⟨r, hr⟩ :=
      ih (fun i hi => h i (List.mem_cons_of_mem item hi)) (mapInsert acc item.key v)
    refine ⟨r, ?_⟩
    rw [buildExtra, hv]
    exact hr

/-- When some extra value fails to parse, the inner loop fails with the
wrapped unmarshal error. -/
theorem buildExtra_error_of_bad (parse : String → Except String Json)
    (items : List ExtraItem)
    (h : ∃ item ∈ items, ∃ e, parse item.valueJson = .error e) :
    ∀ acc, ∃ msg, buildExtra parse items acc =
      .error ("manifest entry extra json.Unmarshal: " ++ msg) := by
  induction items with
  | nil =>
    obtain ⟨item, hmem, -⟩ := h
    exact absurd hmem (List.not_mem_nil item)
  | cons item rest ih =>
    intro acc
    cases hv : parse item.valueJson with
    | error e =>
      refine ⟨e, ?_⟩
      rw [buildExtra, hv]
    | ok v =>
      obtain ⟨it, hmem, e, he⟩ := h
      rcases List.mem_cons.mp hmem with h1 | h1
      · subst h1
        rw [hv] at he
        exact absurd he (by simp)
      · obtain ⟨msg, hmsg⟩ := ih ⟨it, h1, e, he⟩ (mapInsert acc item.key v)
        refine ⟨msg, ?_⟩
        rw [buildExtra, hv]
        exact hmsg

/-- Every error the inner loop produces is a wrapped unmarshal error. -/
theorem buildExtra_error_shape (parse : String → Except String Json)
    (items : List ExtraItem) :
    ∀ acc e, buildExtra parse items acc = .error e →
      ∃ msg, e = "manifest entry extra json.Unmarshal: " ++ msg := by
  induction items with
  | nil =>
    intro acc e h
    exact absurd h (by simp [buildExtra])
  | cons item rest ih =>
    intro acc e h
    cases hv : parse item.valueJson with
    | error e' =>
      rw [buildExtra, hv] at h
      injection h with h2
      exact ⟨e', h2.symm⟩
    | ok v =>
      rw [buildExtra, hv] at h
      exact ih _ _ h

/-- When every extra value of the entry parses, the entry converts. -/
theorem convertManifestEntry_ok_of_all (parse : String → Except String Json)
    (entry : ArtifactManifestEntry)
    (h : ∀ item ∈ entry.extra, ∃ v, parse item.valueJson = .ok v) :
    ∃ e, convertManifestEntry parse entry = .ok e := by
  obtain ⟨r, hr⟩ := buildExtra_ok_of_all parse entry.extra h []
  exact ⟨_, by rw [convertManifestEntry, hr]⟩

/-- When some extra value of the entry fails to parse, the entry conversion
fails with the wrapped unmarshal error. -/
theorem convertManifestEntry_error_of_bad (parse : String → Except String Json)
    (entry : ArtifactManifestEntry)
    (h : ∃ item ∈ entry.extra, ∃ e, parse item.valueJson = .error e) :
    ∃ msg, convertManifestEntry parse entry =
      .error ("manifest entry extra json.Unmarshal: " ++ msg) := by
  obtain ⟨msg, hmsg⟩ := buildExtra_error_of_bad parse entry.extra h []
  exact ⟨msg, by rw [convertManifestEntry, hmsg]⟩

/-- Every error of the entry conversion is a wrapped unmarshal error. -/
theorem convertManifestEntry_error_shape (parse : String → Except String Json)
    (entry : ArtifactManifestEntry) (e : String)
    (h : convertManifestEntry parse entry = .error e) :
    ∃ msg, e = "manifest entry extra json.Unmarshal: " ++ msg := by
  rw [convertManifestEntry] at h
  cases hb : buildExtra parse entry.extra [] with
  | error e' =>
    rw [hb] at h
    injection h with h2
    exact h2 ▸ buildExtra_error_shape parse entry.extra [] e' hb
  | ok r =>
    rw [hb] at h
    exact absurd h (by simp)

/-- When every extra value of every entry parses, the outer loop succeeds. -/
theorem convertContents_ok_of_all (parse : String → Except String Json)
    (l : List ArtifactManifestEntry)
    (h : ∀ entry ∈ l, ∀ item ∈ entry.extra, ∃ v, parse item.valueJson = .ok v) :
    ∀ acc, ∃ c, convertContents parse l acc = .ok c := by
  induction l with
  | nil => exact fun acc => ⟨acc, rfl⟩
  | cons entry rest ih =>
    intro acc
    obtain ⟨e, he⟩ :=
      convertManifestEntry_ok_of_all parse entry
        (h entry (List.mem_cons_self entry rest))
    obtain ⟨c, hc⟩ :=
      ih (fun q hq => h q (List.mem_cons_of_mem entry hq))
        (mapInsert acc entry.path e)
    refine ⟨c, ?_⟩
    rw [convertContents, he]
    exact hc

/-- When some extra value of some entry fails to parse, the outer loop
fails with a wrapped unmarshal error. -/
theorem convertContents_error_of_bad (parse : String → Except String Json)
    (l : List ArtifactManifestEntry)
    (h : ∃ entry ∈ l, ∃ item ∈ entry.extra, ∃ e,
      parse item.valueJson = .error e) :
    ∀ acc, ∃ msg, convertContents parse l acc =
      .error ("manifest entry extra json.Unmarshal: " ++ msg) := by
  induction l with
  | nil =>
    obtain ⟨entry, hmem, -⟩ := h
    exact absurd hmem (List.not_mem_nil entry)
  | cons entry rest ih =>
    intro acc
    cases hce : convertManifestEntry parse entry with
    | error e =>
      obtain ⟨msg, hmsg⟩ := convertManifestEntry_error_shape parse entry e hce
      refine ⟨msg, ?_⟩
      rw [convertContents, hce, hmsg]
    | ok me =>
      obtain ⟨en, hmem, hbad⟩ := h
      rcases List.mem_cons.mp hmem with h1 | h1
      · subst h1
        obtain ⟨msg, hmsg⟩ := convertManifestEntry_error_of_bad parse en hbad
        rw [hce] at hmsg
        exact absurd hmsg (by simp)
      · obtain ⟨msg, hmsg⟩ := ih ⟨en, h1, hbad⟩ (mapInsert acc entry.path me)
        refine ⟨msg, ?_⟩
        rw [convertContents, hce]
        exact hmsg

/-- Claim C2: if any extra pair's `valueJson` fails to parse, the converter
returns the zero `Manifest{}` with a wrapped unmarshal (decode) error — no
partially built manifest; conversely, when every `valueJson` parses, the
returned error is `nil`. -/
theorem spec_c2_decode_error_propagation (parse : String → Except String Json)
    (proto : ArtifactManifest) :
    ((∃ entry ∈ proto.contents, ∃ item ∈ entry.extra, ∃ e,
        parse item.valueJson = .error e) →
      ∃ msg, NewManifestFromProto parse proto =
        (Manifest.empty,
         some ("manifest entry extra json.Unmarshal: " ++ msg))) ∧
    ((∀ entry ∈ proto.contents, ∀ item ∈ entry.extra, ∃ v,
        parse item.valueJson = .ok v) →
      (NewManifestFromProto parse proto).2 = none) := by
  constructor
  · intro h
    obtain ⟨msg, hmsg⟩ := convertContents_error_of_bad parse proto.contents h []
    exact ⟨msg, by rw [NewManifestFromProto, hmsg]⟩
  · intro h
    obtain ⟨c, hc⟩ := convertContents_ok_of_all parse proto.contents h []
    rw [NewManifestFromProto, hc]

/-- Witness for C2: the malformed-extra manifest fails with the wrapped
decode error; the well-formed one converts with a `nil` error. -/
theorem spec_c2_decode_error_propagation_witness :
    (∃ msg, NewManifestFromProto jsonParseLiteral sampleBadWireManifest =
      (Manifest.empty,
       some ("manifest entry extra json.Unmarshal: " ++ msg))) ∧
    (NewManifestFromProto jsonParseLiteral sampleGoodWireManifest).2 = none :=
  ⟨(spec_c2_decode_error_propagation jsonParseLiteral sampleBadWireManifest).1
    ⟨sampleBadWireEntry, by simp [sampleBadWireManifest],
     { key := "k", valueJson := "not-json" }, by simp [sampleBadWireEntry],
     "invalid character looking for beginning of value", rfl⟩,
   (spec_c2_decode_error_propagation jsonParseLiteral sampleGoodWireManifest).2
    (by
      intro entry he item hi
      simp [sampleGoodWireManifest] at he
      subst he
      simp [sampleGoodWireEntry] at hi
      subst hi
      exact ⟨Json.bool true, rfl⟩)⟩

/-! ## Last-wins construction of the contents map (claim C6) -/

/-- When the outer loop succeeds, every listed wire entry converts. -/
theorem convertContents_entries_ok (parse : String → Except String Json)
    (l : List ArtifactManifestEntry) :
    ∀ acc c, convertContents parse l acc = .ok c →
      ∀ entry ∈ l, ∃ e, convertManifestEntry parse entry = .ok e := by
  induction l with
  | nil =>
    intro acc c _ entry hmem
    exact absurd hmem (List.not_mem_nil entry)
  | cons en rest ih =>
    intro acc c h entry hmem
    cases hce : convertManifestEntry parse en with
    | error e =>
      rw [convertContents, hce] at h
      exact absurd h (by simp)
    | ok me =>
      rw [convertContents, hce] at h
      rcases List.mem_cons.mp hmem with h1 | h1
      · exact ⟨me, h1 ▸ hce⟩
      · exact ih _ _ h entry h1

/-- The contents map built by the outer loop has unique path keys. -/
theorem convertContents_nodup (parse : String → Except String Json)
    (l : List ArtifactManifestEntry) :
    ∀ acc c, (acc.map Prod.fst).Nodup → convertContents parse l acc = .ok c →
      (c.map Prod.fst).Nodup := by
  induction l with
  | nil =>
    intro acc c hn h
    rw [convertContents] at h
    injection h with h2
    exact h2 ▸ hn
  | cons en rest ih =>
    intro acc c hn h
    cases hce : convertManifestEntry parse en with
    | error e =>
      rw [convertContents, hce] at h
      exact absurd h (by simp)
    | ok me =>
      rw [convertContents, hce] at h
      exact ih _ _ (nodup_keys_mapInsert acc en.path me hn) h

/-- Looking up a path in the contents map built by the outer loop finds the
conversion of the last wire entry bearing that path, falling back to the
accumulator when no listed entry bears it. -/
theorem convertContents_lookup (parse : String → Except String Json)
    (l : List ArtifactManifestEntry) :
    ∀ acc c, convertContents parse l acc = .ok c →
      ∀ path, mapLookup c path =
        match l.reverse.find? (fun q => q.path == path) with
        | some entry =>
          match convertManifestEntry parse entry with
          | .ok e => some e
          | .error _ => none
        | none => mapLookup acc path := by
  induction l with
  | nil =>
    intro acc c h path
    rw [convertContents] at h
    injection h with h2
    subst h2
    rfl
  | cons en rest ih =>
    intro acc c h path
    cases hce : convertManifestEntry parse en with
    | error e =>
      rw [convertContents, hce] at h
      exact absurd h (by simp)
    | ok me =>
      rw [convertContents, hce] at h
      have hrec := ih _ _ h path
      rw [hrec, List.reverse_cons, List.find?_append]
      cases hf : rest.reverse.find? (fun q => q.path == path) with
      | some q => simp
      | none =>
        rw [mapLookup_mapInsert]
        by_cases hp : en.path = path
        · simp [hp, hce]
        · simp [hp]

/-- Claim C6: when conversion succeeds, every path key of the resulting
contents map is unique, and each path maps to the conversion of the last
wire entry in input order bearing that path (last-wins); a path no wire
entry bears is absent. -/
theorem spec_c6_last_wins (parse : String → Except String Json)
    (proto : ArtifactManifest) (m : Manifest)
    (h : NewManifestFromProto parse proto = (m, none)) :
    (m.contents.map Prod.fst).Nodup ∧
    (∀ path entry,
      proto.contents.reverse.find? (fun q => q.path == path) = some entry →
      ∃ e, convertManifestEntry parse entry = .ok e ∧
        mapLookup m.contents path = some e) ∧
    (∀ path,
      proto.contents.reverse.find? (fun q => q.path == path) = none →
      mapLookup m.contents path = none) := by
  cases hcc : convertContents parse proto.contents [] with
  | error e =>
    rw [NewManifestFromProto, hcc] at h
    simp at h
  | ok c =>
    rw [NewManifestFromProto, hcc] at h
    injection h with h1 h2
    subst h1
    refine ⟨?_, ?_, ?_⟩
    · exact convertContents_nodup parse proto.contents [] c (by simp) hcc
    · intro path entry hf
      have hmem : entry ∈ proto.contents :=
        List.mem_reverse.mp (List.mem_of_find?_eq_some hf)
      obtain ⟨e, hce⟩ :=
        convertContents_entries_ok parse proto.contents [] c hcc entry hmem
      have hl := convertContents_lookup parse proto.contents [] c hcc path
      rw [hf] at hl
      simp only [hce] at hl
      exact ⟨e, hce, hl⟩
    · intro path hf
      have hl := convertContents_lookup parse proto.contents [] c hcc path
      rw [hf] at hl
      exact hl

/-- Witness for C6: two wire entries share the path `"model.pt"`; the
converted manifest maps it to the second entry's data under a unique key. -/
theorem spec_c6_last_wins_witness :
    ∃ m, NewManifestFromProto jsonParseLiteral sampleDupWireManifest =
        (m, none) ∧
      ((m.contents.map Prod.fst).Nodup ∧
       (∀ path entry,
         sampleDupWireManifest.contents.reverse.find?
             (fun q => q.path == path) = some entry →
         ∃ e, convertManifestEntry jsonParseLiteral entry = .ok e ∧
           mapLookup m.contents path = some e) ∧
       (∀ path,
         sampleDupWireManifest.contents.reverse.find?
             (fun q => q.path == path) = none →
         mapLookup m.contents path = none)) :=
  ⟨_, rfl, spec_c6_last_wins jsonParseLiteral sampleDupWireManifest _ rfl⟩

/-! ## Round-trip of the serialized manifest (claim C3) -/

/-- Inserting a key smaller than every key of the list prepends. -/
theorem insertByKey_of_head_lt {α : Type} (p : String × α)
    (l : List (String × α)) (h : ∀ q ∈ l, p.1 < q.1) :
    insertByKey p l = p :: l := by
  cases l with
  | nil => rfl
  | cons q rest =>
    rw [insertByKey, if_pos (h q (List.mem_cons_self q rest))]

/-- Sorting a list that is already key-sorted is the identity. -/
theorem sortByKey_sorted_eq_self {α : Type} (l : List (String × α))
    (h : keysSorted l) : sortByKey l = l := by
  induction l with
  | nil => rfl
  | cons p rest ih =>
    rw [keysSorted, List.pairwise_cons] at h
    simp only [sortByKey, List.foldr_cons] at ih ⊢
    rw [ih h.2]
    exact insertByKey_of_head_lt p rest h.1

/-- Strictly sorted keys are in particular duplicate-free. -/
theorem keysSorted_nodup_keys {α : Type} (l : List (String × α))
    (h : keysSorted l) : (l.map Prod.fst).Nodup := by
  exact List.pairwise_map.mpr (h.imp fun hlt => ne_of_lt hlt)

/-- Mapping over the values preserves key-sortedness. -/
theorem keysSorted_map_values {α β : Type} (g : α → β)
    (l : List (String × α)) (h : keysSorted l) :
    keysSorted (l.map fun p => (p.1, g p.2)) := by
  rw [keysSorted, List.pairwise_map]
  exact h

/-- Folding map assignments of fresh keys over an accumulator appends. -/
theorem foldl_mapInsert_append {α : Type} (l : List (String × α)) :
    ∀ acc, (acc.map Prod.fst ++ l.map Prod.fst).Nodup →
      l.foldl (fun a p => mapInsert a p.1 p.2) acc = acc ++ l := by
  induction l with
  | nil =>
    intro acc _
    simp
  | cons p rest ih =>
    intro acc h
    have hnot : ∀ q ∈ acc, q.1 ≠ p.1 := by
      intro q hq hqp
      rcases (List.nodup_append.mp h) with ⟨-, -, hdisj⟩
      exact hdisj (List.mem_map_of_mem Prod.fst hq)
        (by rw [hqp]; simp)
    simp only [List.foldl_cons]
    rw [mapInsert_of_not_mem acc p.1 p.2 hnot, Prod.mk.eta]
    have hrest : ((acc ++ [p]).map Prod.fst ++ rest.map Prod.fst).Nodup := by
      simpa [List.append_assoc] using h
    rw [ih (acc ++ [p]) hrest]
    simp

/-- Folding map assignments over duplicate-free bindings rebuilds the same
list (the model of `json.Unmarshal` filling a map from unique JSON keys). -/
theorem foldl_mapInsert_self {α : Type} (l : List (String × α))
    (h : (l.map Prod.fst).Nodup) :
    l.foldl (fun a p => mapInsert a p.1 p.2) [] = l := by
  simpa using foldl_mapInsert_append l [] (by simpa using h)

/-- Unmarshalling a sorted, duplicate-free extra object recovers it. -/
theorem decodeJsonMap_roundtrip (ex : List (String × Json))
    (h : keysSorted ex) :
    decodeJsonMap (Json.obj (sortByKey ex)) = some ex := by
  rw [sortByKey_sorted_eq_self ex h, decodeJsonMap,
    foldl_mapInsert_self ex (keysSorted_nodup_keys ex h)]

/-- Unmarshalling the marshalled entry object recovers the entry, except
that the never-serialized `localPath`/`downloadURL` come back `nil`. -/
theorem manifestEntryOfJson_roundtrip (e : ManifestEntry)
    (hex : keysSorted e.extra) :
    manifestEntryOfJson (manifestEntryToJson e) = some e.scrub := by
  obtain ⟨d, b, r, sz, ex, lp, du⟩ := e
  simp only [ManifestEntry.scrub] at *
  cases b <;> cases r <;> cases ex <;>
    simp [manifestEntryToJson, manifestEntryOfJson, decodeStringField,
      decodeOptStringField, decodeIntField, mapLookup,
      decodeJsonMap_roundtrip _ hex]

/-- Unmarshalling the marshalled entries of a contents map, folding the
assignments over an accumulator with fresh keys, appends the scrubbed
entries. -/
theorem decodeContents_go (l : List (String × ManifestEntry)) :
    ∀ acc, (acc.map Prod.fst ++ l.map Prod.fst).Nodup →
      (∀ p ∈ l, keysSorted p.2.extra) →
      (l.map fun p => (p.1, manifestEntryToJson p.2)).foldlM
          decodeContentsStep acc =
        some (acc ++ l.map fun p => (p.1, p.2.scrub)) := by
  induction l with
  | nil =>
    intro acc _ _
    simp
  | cons p rest ih =>
    intro acc h hx
    have hnot : ∀ q ∈ acc, q.1 ≠ p.1 := by
      intro q hq hqp
      rcases (List.nodup_append.mp h) with ⟨-, -, hdisj⟩
      exact hdisj (List.mem_map_of_mem Prod.fst hq) (by rw [hqp]; simp)
    have hrest : ((acc ++ [(p.1, p.2.scrub)]).map Prod.fst ++
        rest.map Prod.fst).Nodup := by
      simpa [List.append_assoc] using h
    simp only [List.map_cons, List.foldlM_cons, decodeContentsStep,
      manifestEntryOfJson_roundtrip p.2 (hx p (List.mem_cons_self p rest)),
      Option.bind_eq_bind, Option.some_bind]
    rw [mapInsert_of_not_mem acc p.1 p.2.scrub hnot]
    simp only [Option.pure_def, Option.some_bind]
    rw [ih (acc ++ [(p.1, p.2.scrub)]) hrest
      (fun q hq => hx q (List.mem_cons_of_mem p hq))]
    simp

/-- Unmarshalling the marshalled manifest recovers the manifest with the
never-serialized entry fields absent. -/
theorem manifestOfJson_roundtrip (m : Manifest) (hc : keysSorted m.contents)
    (hex : ∀ p ∈ m.contents, keysSorted p.2.extra) :
    manifestOfJson (manifestToJson m) =
      some { m with contents := m.contents.map fun p => (p.1, p.2.scrub) } := by
  obtain ⟨v, sp, ⟨sl⟩, cs⟩ := m
  have hsorted : keysSorted (cs.map fun p => (p.1, manifestEntryToJson p.2)) :=
    keysSorted_map_values _ cs hc
  have hdec :
      decodeContents (Json.obj (sortByKey
        (cs.map fun p => (p.1, manifestEntryToJson p.2)))) =
      some (cs.map fun p => (p.1, p.2.scrub)) := by
    rw [sortByKey_sorted_eq_self _ hsorted]
    simp only [decodeContents]
    have hgo := decodeContents_go cs []
      (by simpa using keysSorted_nodup_keys cs hc) hex
    simpa using hgo
  simp [manifestToJson, manifestOfJson, decodeIntField, decodeStringField,
    decodeStoragePolicyConfig, mapLookup, hdec]

/-- On success, the writer wrote exactly the serialized manifest JSON. -/
theorem writeToFile_writes_serialized (b64md5 : String → String)
    (env : WriteEnv) (m : Manifest)
    (h : (WriteToFile b64md5 env m).error = none) :
    ∃ name, (WriteToFile b64md5 env m).fileWritten =
      some (name, serializeJson (manifestToJson m)) := by
  cases hm : env.marshalErr with
  | some e => simp [WriteToFile, hm] at h
  | none =>
    cases hc : env.createTemp with
    | error e => simp [WriteToFile, hm, hc] at h
    | ok name =>
      cases hw : env.writeErr with
      | some e => simp [WriteToFile, hm, hc, hw] at h
      | none => exact ⟨name, by simp [WriteToFile, hm, hc, hw]⟩

/-- Claim C3: round-trip through the persistence writer.  Whenever
`WriteToFile` succeeds it wrote exactly the serialized text of
`manifestToJson m` — and text-level JSON parsing of printed JSON recovers
the printed structure — while unmarshalling that structure as the manifest
schema yields a manifest equal to the original except that the
never-serialized `localPath`/`downloadURL` fields are absent.  The
manifest is taken in the canonical Go-map representation (key-sorted
contents and extras; every Go map value has exactly one such
representation). -/
theorem spec_c3_roundtrip (m : Manifest) (hc : keysSorted m.contents)
    (hex : ∀ p ∈ m.contents, keysSorted p.2.extra) :
    (∀ b64md5 env, (WriteToFile b64md5 env m).error = none →
      ∃ name, (WriteToFile b64md5 env m).fileWritten =
        some (name, serializeJson (manifestToJson m))) ∧
    manifestOfJson (manifestToJson m) =
      some { m with contents := m.contents.map fun p => (p.1, p.2.scrub) } :=
  ⟨fun b64md5 env h => writeToFile_writes_serialized b64md5 env m h,
   manifestOfJson_roundtrip m hc hex⟩

/-- The sample manifest's contents are key-sorted. -/
theorem sampleManifest_contents_sorted : keysSorted sampleManifest.contents := by
  simp [sampleManifest, keysSorted]
  decide

/-- The sample manifest's extras are key-sorted. -/
theorem sampleManifest_extras_sorted :
    ∀ p ∈ sampleManifest.contents, keysSorted p.2.extra := by
  intro p hp
  simp [sampleManifest] at hp
  rcases hp with h | h <;> subst h <;>
    simp [sampleEntryData, sampleEntryModel, keysSorted]
  decide

/-- Witness for C3 on the sample manifest. -/
theorem spec_c3_roundtrip_witness :
    (∀ b64md5 env,
      (WriteToFile b64md5 env sampleManifest).error = none →
      ∃ name, (WriteToFile b64md5 env sampleManifest).fileWritten =
        some (name, serializeJson (manifestToJson sampleManifest))) ∧
    manifestOfJson (manifestToJson sampleManifest) =
      some { sampleManifest with
             contents :=
               sampleManifest.contents.map fun p => (p.1, p.2.scrub) } :=
  spec_c3_roundtrip sampleManifest sampleManifest_contents_sorted
    sampleManifest_extras_sorted
